import Mathlib

/-!
Verification of mcp-shopping-list-firestore (src/main.go).

The program is a small MCP server exposing three tools (list_items,
upsert_item, remove_item) over one Firestore collection.  We embed the
data model, the Firestore-backed service (ShoppingListService.ListItems,
UpsertItem, RemoveItem) and the tool dispatcher handlers as pure Lean
functions, with the remote document collection modelled explicitly as the
store state that every operation threads through.

Modelling choices:
* A Firestore document either decodes into an Item (Doc.ok) or fails to
  decode (Doc.corrupt) — mirroring d.DataTo(&it) succeeding or erroring.
* The collection is an association list of (document id, document) in
  arrival order; GetAll returns it in that order.
* The Firestore primitives used by the code keep their documented
  semantics: Create fails iff a document with the id already exists,
  Update fails iff no document with the id exists and touches only the
  listed fields, Delete succeeds whether or not the document exists.
* time.Now().UTC() at the start of UpsertItem and uuid.New().String()
  are nondeterministic inputs, passed as explicit parameters (now, freshId).
* Infrastructure failures of the remote store (network errors, timeouts)
  are outside this pure model; every modelled failure is a semantic one
  (Conflict / NotFound) or a local validation failure.
-/

namespace ShoppingList

/-- Item (src/main.go): a shopping list entry.  `CreatedAt` (a UTC
time.Time) is modelled as a Nat timestamp. -/
structure Item where
  id : String
  name : String
  quantity : Option String
  createdAt : Nat
deriving DecidableEq, Repr

/-- ItemInput (src/main.go): the user-facing upsert payload. -/
structure ItemInput where
  id : Option String
  name : String
  quantity : Option String
deriving DecidableEq, Repr

/-- A stored Firestore document: either it decodes into an Item
(DataTo succeeds) or it is undecodable (DataTo returns an error). -/
inductive Doc where
  | ok : Item → Doc
  | corrupt : Doc
deriving DecidableEq, Repr

/-- The Firestore collection: documents keyed by document id, in
arrival order (the order GetAll returns them). -/
abbrev Store := List (String × Doc)

/-- Semantic store errors surfaced by the service layer. -/
inductive StoreError where
  | conflict
  | notFound
deriving DecidableEq, Repr

/-- Look up the document with the given document id. -/
def docAt : Store → String → Option Doc
  | [], _ => none
  | (k, d) :: rest, i => if k = i then some d else docAt rest i

/-- Firestore Delete by document id: removes the document if present,
succeeds (leaving the store unchanged) if absent. -/
def delDocs : Store → String → Store
  | [], _ => []
  | (k, d) :: rest, i => if k = i then delDocs rest i else (k, d) :: delDocs rest i

/-- One firestore.Update entry as built by UpsertItem: a field path with
its new value. -/
inductive FUpdate where
  | name : String → FUpdate
  | quantity : String → FUpdate
deriving DecidableEq, Repr

/-- Apply one field update to a document.  On a decodable document the
named field is rewritten; an undecodable document stays undecodable
(rewriting name or quantity does not repair the fields that fail to
decode). -/
def applyUpdate (d : Doc) (u : FUpdate) : Doc :=
  match d, u with
  | .ok it, .name n => .ok { it with name := n }
  | .ok it, .quantity q => .ok { it with quantity := some q }
  | .corrupt, _ => .corrupt

/-- Apply a firestore.Update list in order. -/
def applyUpdates (d : Doc) (us : List FUpdate) : Doc :=
  us.foldl applyUpdate d

/-- Firestore Update: rewrite only the listed fields of the document
with the given id.  (The caller checks existence; see UpsertItem.) -/
def updDocs : Store → String → List FUpdate → Store
  | [], _, _ => []
  | (k, d) :: rest, j, us =>
    if k = j then (k, applyUpdates d us) :: updDocs rest j us
    else (k, d) :: updDocs rest j us

/-- ListItems (src/main.go lines 101-117): decode every document in
store order; a document whose decode fails is skipped (and logged as a
warning) rather than failing the whole list. -/
def listDocs : Store → List Item
  | [] => []
  | (_, .ok it) :: rest => it :: listDocs rest
  | (_, .corrupt) :: rest => listDocs rest

/-- ShoppingListService.ListItems. -/
def ListItems (s : Store) : List Item := listDocs s

/-- The create branch of UpsertItem (src/main.go lines 123-135):
build the Item with the generated id and the start-of-call timestamp,
and insert it with Create — which fails with Conflict iff a document
with that id already exists. -/
def upsertCreate (s : Store) (input : ItemInput) (freshId : String) (now : Nat) :
    Except StoreError (List Item) × Store :=
  let item : Item := { id := freshId, name := input.name,
                       quantity := input.quantity, createdAt := now }
  if (docAt s freshId).isSome then
    (.error .conflict, s)
  else
    let s' := s ++ [(freshId, Doc.ok item)]
    (.ok (ListItems s'), s')

/-- ShoppingListService.UpsertItem (src/main.go lines 120-151): create
when input.ID is nil or the empty string, otherwise a field-level
Update of name (always) and quantity (only when supplied), failing with
NotFound when no document with the id exists.  On success it returns
ListItems of the post-mutation store; on failure the store is
unchanged.  `freshId` models uuid.New().String(), `now` models
time.Now().UTC() taken at the start of the call. -/
def UpsertItem (s : Store) (input : ItemInput) (freshId : String) (now : Nat) :
    Except StoreError (List Item) × Store :=
  match input.id with
  | none => upsertCreate s input freshId now
  | some i =>
    if i = "" then upsertCreate s input freshId now
    else
      let us := FUpdate.name input.name ::
        (match input.quantity with
         | some q => [FUpdate.quantity q]
         | none => [])
      if (docAt s i).isSome then
        let s' := updDocs s i us
        (.ok (ListItems s'), s')
      else
        (.error .notFound, s)

/-- ShoppingListService.RemoveItem (src/main.go lines 154-160): delete
the document by id (idempotent — deleting an absent id succeeds), then
return ListItems of the remaining store. -/
def RemoveItem (s : Store) (i : String) :
    Except StoreError (List Item) × Store :=
  let s' := delDocs s i
  (.ok (ListItems s'), s')

/-! ## Tool dispatcher (MCP handlers) -/

/-- A dynamically-typed argument value from the MCP argument bag. -/
inductive JValue where
  | str : String → JValue
  | num : Int → JValue
  | bool : Bool → JValue
  | null : JValue
deriving DecidableEq, Repr

/-- The string-keyed argument bag of a tool call. -/
abbrev Args := List (String × JValue)

/-- Look up a key in the argument bag (first entry wins). -/
def getArg : Args → String → Option JValue
  | [], _ => none
  | (k, v) :: rest, key => if k = key then some v else getArg rest key

/-- The Go type assertion args[key].(string): succeeds iff the value is
present and is a string. -/
def asString : Option JValue → Option String
  | some (JValue.str s) => some s
  | _ => none

/-- The handler's extraction of an optional string argument
(src/main.go lines 249-257): present, a string, and non-empty — the
empty string is collapsed to absent. -/
def optStringArg (args : Args) (key : String) : Option String :=
  match asString (getArg args key) with
  | some v => if v = "" then none else some v
  | none => none

/-- A tool call result: a JSON payload of the item list on success
(jsonResult of ListItemsResponse), or an MCP error result. -/
inductive ToolResult where
  | ok : List Item → ToolResult
  | error : String → ToolResult
deriving DecidableEq, Repr

/-- Render a StoreError the way the wrapped Go error reads. -/
def errMsg : StoreError → String
  | .conflict => "create item: already exists"
  | .notFound => "update item: not found"

/-- The list_items handler (src/main.go lines 218-227): read-only. -/
def listItemsHandler (s : Store) : ToolResult × Store :=
  (.ok (ListItems s), s)

/-- The upsert_item handler (src/main.go lines 238-276): requires a
string `name` argument, rejects an empty name locally, collapses empty
`id` and `quantity` strings to absent, then delegates to UpsertItem. -/
def upsertItemHandler (args : Args) (s : Store) (freshId : String) (now : Nat) :
    ToolResult × Store :=
  match asString (getArg args "name") with
  | none => (.error "invalid or missing name", s)
  | some name =>
    let id := optStringArg args "id"
    let qty := optStringArg args "quantity"
    if name = "" then (.error "name is required", s)
    else
      match UpsertItem s { id := id, name := name, quantity := qty } freshId now with
      | (.ok items, s') => (.ok items, s')
      | (.error e, s') => (.error ("failed to upsert item: " ++ errMsg e), s')

/-- The remove_item handler (src/main.go lines 285-302): requires a
non-empty string `id` argument, then delegates to RemoveItem. -/
def removeItemHandler (args : Args) (s : Store) : ToolResult × Store :=
  match asString (getArg args "id") with
  | none => (.error "invalid or missing id", s)
  | some i =>
    if i = "" then (.error "invalid or missing id", s)
    else
      match RemoveItem s i with
      | (.ok items, s') => (.ok items, s')
      | (.error e, s') => (.error ("failed to remove item: " ++ errMsg e), s')

/-! ## Tool-invocation traces -/

/-- One tool invocation, with its nondeterministic inputs. -/
inductive ToolCall where
  | listCall
  | upsertCall (args : Args) (freshId : String) (now : Nat)
  | removeCall (args : Args)

/-- The store state after one tool invocation. -/
def step (s : Store) : ToolCall → Store
  | .listCall => (listItemsHandler s).2
  | .upsertCall args freshId now => (upsertItemHandler args s freshId now).2
  | .removeCall args => (removeItemHandler args s).2

/-- The store state after a sequence of tool invocations. -/
def run (s : Store) : List ToolCall → Store
  | [] => s
  | c :: cs => run (step s c) cs

/-! ## Argument-bag modification (for stating empty-equals-absent) -/

/-- Remove every binding of a key from the argument bag. -/
def delArg : Args → String → Args
  | [], _ => []
  | (k', v) :: rest, k => if k' = k then delArg rest k else (k', v) :: delArg rest k

/-- Bind a key in the argument bag (shadowing any existing binding). -/
def setArg (args : Args) (k : String) (v : JValue) : Args :=
  (k, v) :: delArg args k

/-- Well-formed store: every decodable document's stored id field equals
its document id.  (Every document created by this service satisfies
this: UpsertItem writes the item at Doc(item.ID).) -/
def storeWF (s : Store) : Bool :=
  s.all (fun p => match p.2 with
                  | .ok it => it.id == p.1
                  | .corrupt => true)

/-! ## Helper lemmas about the store primitives -/

theorem listDocs_append (l₁ l₂ : Store) :
    listDocs (l₁ ++ l₂) = listDocs l₁ ++ listDocs l₂ := by
  induction l₁ with
  | nil => rfl
  | cons p rest ih =>
    obtain ⟨k, d⟩ := p
    cases d <;> simp [listDocs, ih]

theorem docAt_append_left {l₁ : Store} {i : String} {d : Doc}
    (h : docAt l₁ i = some d) (l₂ : Store) :
    docAt (l₁ ++ l₂) i = some d := by
  induction l₁ with
  | nil => simp [docAt] at h
  | cons p rest ih =>
    obtain ⟨k, d'⟩ := p
    by_cases hk : k = i
    · simpa [docAt, hk] using h
    · simp [docAt, hk] at h ⊢
      exact ih h

theorem docAt_delDocs_self (l : Store) (i : String) :
    docAt (delDocs l i) i = none := by
  induction l with
  | nil => rfl
  | cons p rest ih =>
    obtain ⟨k, d⟩ := p
    by_cases hk : k = i
    · simp [delDocs, hk, ih]
    · simp [delDocs, docAt, hk, ih]

theorem docAt_delDocs_ne (l : Store) (i j : String) (h : i ≠ j) :
    docAt (delDocs l j) i = docAt l i := by
  induction l with
  | nil => rfl
  | cons p rest ih =>
    obtain ⟨k, d⟩ := p
    by_cases hk : k = j
    · subst hk
      simp [delDocs, docAt, Ne.symm h, ih]
    · by_cases hki : k = i <;> simp [delDocs, docAt, hk, hki, h, ih]

theorem delDocs_idem (l : Store) (i : String) :
    delDocs (delDocs l i) i = delDocs l i := by
  induction l with
  | nil => rfl
  | cons p rest ih =>
    obtain ⟨k, d⟩ := p
    by_cases hk : k = i
    · simp [delDocs, hk, ih]
    · simp [delDocs, hk, ih]

theorem docAt_updDocs_self (l : Store) (j : String) (us : List FUpdate) :
    docAt (updDocs l j us) j = (docAt l j).map (fun d => applyUpdates d us) := by
  induction l with
  | nil => rfl
  | cons p rest ih =>
    obtain ⟨k, d⟩ := p
    by_cases hk : k = j
    · simp [updDocs, docAt, hk]
    · simp [updDocs, docAt, hk, ih]

theorem docAt_updDocs_ne (l : Store) (i j : String) (h : i ≠ j)
    (us : List FUpdate) :
    docAt (updDocs l j us) i = docAt l i := by
  induction l with
  | nil => rfl
  | cons p rest ih =>
    obtain ⟨k, d⟩ := p
    by_cases hk : k = j
    · subst hk
      simp [updDocs, docAt, Ne.symm h, ih]
    · by_cases hki : k = i <;> simp [updDocs, docAt, hk, hki, h, ih]

theorem mem_listDocs {it : Item} {l : Store} (h : it ∈ listDocs l) :
    ∃ k, (k, Doc.ok it) ∈ l := by
  induction l with
  | nil => simp [listDocs] at h
  | cons p rest ih =>
    obtain ⟨k, d⟩ := p
    cases d with
    | ok it' =>
      rcases (by simpa [listDocs] using h : it = it' ∨ it ∈ listDocs rest) with h' | h'
      · exact ⟨k, by simp [h']⟩
      · obtain ⟨k', hk'⟩ := ih h'
        exact ⟨k', by simp [hk']⟩
    | corrupt =>
      obtain ⟨k', hk'⟩ := ih (by simpa [listDocs] using h)
      exact ⟨k', by simp [hk']⟩

theorem mem_delDocs {p : String × Doc} {l : Store} {i : String}
    (h : p ∈ delDocs l i) : p.1 ≠ i ∧ p ∈ l := by
  induction l with
  | nil => simp [delDocs] at h
  | cons q rest ih =>
    obtain ⟨k, d⟩ := q
    by_cases hk : k = i
    · subst hk
      have := ih (by simpa [delDocs] using h)
      exact ⟨this.1, by simp [this.2]⟩
    · rcases (by simpa [delDocs, hk] using h : p = (k, d) ∨ p ∈ delDocs rest i) with h' | h'
      · subst h'
        exact ⟨hk, by simp⟩
      · have := ih h'
        exact ⟨this.1, by simp [this.2]⟩

theorem storeWF_spec {s : Store} (hwf : storeWF s = true) {k : String} {it : Item}
    (h : (k, Doc.ok it) ∈ s) : it.id = k := by
  have := List.all_eq_true.mp hwf _ h
  simpa using this

/-- The branch structure of UpsertItem: a nil or empty id routes to the
create branch. -/
theorem upsertItem_emptyId (s : Store) (input : ItemInput) (f : String) (now : Nat)
    (hid : input.id = none ∨ input.id = some "") :
    UpsertItem s input f now = upsertCreate s input f now := by
  rcases hid with h | h <;> simp [UpsertItem, h]

/-- On success UpsertItem returns the post-mutation list. -/
theorem upsertItem_ok_list {s : Store} {input : ItemInput} {f : String} {now : Nat}
    {l : List Item} {s' : Store}
    (h : UpsertItem s input f now = (.ok l, s')) : l = ListItems s' := by
  rcases hid : input.id with _ | i
  · rw [upsertItem_emptyId s input f now (Or.inl hid)] at h
    unfold upsertCreate at h
    by_cases hf : (docAt s f).isSome
    · simp [hf] at h
    · simp only [hf, Bool.false_eq_true, if_false] at h
      obtain ⟨h₁, h₂⟩ := Prod.mk.injEq .. ▸ h
      simp only [Except.ok.injEq] at h₁
      exact h₂ ▸ h₁.symm
  · by_cases hie : i = ""
    · rw [upsertItem_emptyId s input f now (Or.inr (hie ▸ hid))] at h
      unfold upsertCreate at h
      by_cases hf : (docAt s f).isSome
      · simp [hf] at h
      · simp only [hf, Bool.false_eq_true, if_false] at h
        obtain ⟨h₁, h₂⟩ := Prod.mk.injEq .. ▸ h
        simp only [Except.ok.injEq] at h₁
        exact h₂ ▸ h₁.symm
    · simp only [UpsertItem, hid, hie, if_false] at h
      by_cases hex : (docAt s i).isSome
      · simp only [hex, if_true] at h
        obtain ⟨h₁, h₂⟩ := Prod.mk.injEq .. ▸ h
        simp only [Except.ok.injEq] at h₁
        exact h₂ ▸ h₁.symm
      · simp [hex] at h

/-! ## Helper lemmas about the argument bag -/

theorem getArg_delArg_self (args : Args) (k : String) :
    getArg (delArg args k) k = none := by
  induction args with
  | nil => rfl
  | cons p rest ih =>
    obtain ⟨k', v⟩ := p
    by_cases h : k' = k
    · simp [delArg, h, ih]
    · simp [delArg, getArg, h, ih]

theorem getArg_delArg_ne (args : Args) (k k' : String) (h : k' ≠ k) :
    getArg (delArg args k) k' = getArg args k' := by
  induction args with
  | nil => rfl
  | cons p rest ih =>
    obtain ⟨k₀, v⟩ := p
    by_cases h₀ : k₀ = k
    · subst h₀
      simp [delArg, getArg, Ne.symm h, ih]
    · by_cases h₁ : k₀ = k' <;> simp [delArg, getArg, h₀, h₁, h, ih]

theorem getArg_setArg_self (args : Args) (k : String) (v : JValue) :
    getArg (setArg args k v) k = some v := by
  simp [setArg, getArg]

theorem getArg_setArg_ne (args : Args) (k k' : String) (h : k' ≠ k) (v : JValue) :
    getArg (setArg args k v) k' = getArg args k' := by
  simp [setArg, getArg, Ne.symm h, getArg_delArg_ne args k k' h]

/-- The upsert handler only reads the three argument keys. -/
theorem upsertItemHandler_congr (a₁ a₂ : Args) (s : Store) (f : String) (now : Nat)
    (hname : asString (getArg a₁ "name") = asString (getArg a₂ "name"))
    (hid : optStringArg a₁ "id" = optStringArg a₂ "id")
    (hqty : optStringArg a₁ "quantity" = optStringArg a₂ "quantity") :
    upsertItemHandler a₁ s f now = upsertItemHandler a₂ s f now := by
  unfold upsertItemHandler
  simp only [hname, hid, hqty]

/-- The upsert handler either leaves the store alone (validation
failure) or hands it to UpsertItem. -/
theorem upsertItemHandler_post (args : Args) (s : Store) (f : String) (now : Nat) :
    (upsertItemHandler args s f now).2 = s ∨
    ∃ input, (upsertItemHandler args s f now).2 = (UpsertItem s input f now).2 := by
  unfold upsertItemHandler
  cases hn : asString (getArg args "name") with
  | none => exact Or.inl rfl
  | some name =>
    by_cases h₀ : name = ""
    · simp only [h₀, if_true]
      exact Or.inl trivial
    · right
      refine ⟨⟨optStringArg args "id", name, optStringArg args "quantity"⟩, ?_⟩
      simp only [h₀, if_false]
      rcases hu : UpsertItem s ⟨optStringArg args "id", name, optStringArg args "quantity"⟩ f now with ⟨r, s₂⟩
      cases r <;> simp [hu]

/-- The remove handler either leaves the store alone (validation
failure) or hands it to RemoveItem. -/
theorem removeItemHandler_post (args : Args) (s : Store) :
    (removeItemHandler args s).2 = s ∨
    ∃ j, (removeItemHandler args s).2 = (RemoveItem s j).2 := by
  unfold removeItemHandler
  cases hn : asString (getArg args "id") with
  | none => exact Or.inl rfl
  | some i =>
    by_cases h₀ : i = ""
    · simp only [h₀, if_true]
      exact Or.inl trivial
    · right
      refine ⟨i, ?_⟩
      simp only [h₀, if_false]
      rfl

/-! ## Claim theorems -/

/-- C1: an upsert_item invocation whose id is absent or empty takes the
create branch: it builds the Item from the generated identifier, the
submitted name and quantity, and the UTC timestamp taken at the start of
the call, and inserts it, so the post-mutation list is exactly the old
list plus that one new Item; the creation is an insert, failing with
Conflict when a document with the generated id already exists. -/
theorem upsert_create_spec (s : Store) (input : ItemInput) (f : String) (now : Nat)
    (hid : input.id = none ∨ input.id = some "") :
    ((docAt s f).isSome = false →
        UpsertItem s input f now =
          (.ok (ListItems s ++ [{ id := f, name := input.name,
                                  quantity := input.quantity, createdAt := now }]),
           s ++ [(f, Doc.ok { id := f, name := input.name,
                              quantity := input.quantity, createdAt := now })])) ∧
    ((docAt s f).isSome = true →
        UpsertItem s input f now = (.error .conflict, s)) := by
  rw [upsertItem_emptyId s input f now hid]
  constructor
  · intro hfresh
    simp [upsertCreate, hfresh, ListItems, listDocs_append, listDocs]
  · intro hex
    simp [upsertCreate, hex]

/-- Witness for C1 at a concrete input. -/
theorem upsert_create_spec_witness :
    UpsertItem [] { id := none, name := "milk", quantity := none } "id1" 0 =
      (.ok [{ id := "id1", name := "milk", quantity := none, createdAt := 0 }],
       [("id1", Doc.ok { id := "id1", name := "milk", quantity := none,
                         createdAt := 0 })]) :=
  (upsert_create_spec [] { id := none, name := "milk", quantity := none } "id1" 0
      (Or.inl rfl)).1 rfl

/-- C2: an upsert_item invocation with a non-empty id naming an existing
item performs a field-level update: name is always rewritten, quantity is
rewritten only when supplied (omitted quantity leaves the stored value),
id and created_at are unchanged, and every other document is untouched. -/
theorem upsert_update_spec (s : Store) (i nm : String) (qty : Option String)
    (f : String) (now : Nat) (it : Item)
    (hne : i ≠ "") (hex : docAt s i = some (Doc.ok it)) :
    ∃ s', UpsertItem s { id := some i, name := nm, quantity := qty } f now
            = (.ok (ListItems s'), s') ∧
      docAt s' i = some (Doc.ok
        { id := it.id, name := nm,
          quantity := match qty with | some q => some q | none => it.quantity,
          createdAt := it.createdAt }) ∧
      (∀ j, j ≠ i → docAt s' j = docAt s j) := by
  have hsome : (docAt s i).isSome = true := by rw [hex]; rfl
  refine ⟨updDocs s i (FUpdate.name nm ::
      (match qty with | some q => [FUpdate.quantity q] | none => [])), ?_, ?_, ?_⟩
  · simp [UpsertItem, hne, hsome]
  · rw [docAt_updDocs_self, hex]
    cases qty <;> simp [applyUpdates, applyUpdate]
  · intro j hj
    exact docAt_updDocs_ne s j i hj _

/-- Witness for C2 at a concrete input. -/
theorem upsert_update_spec_witness :
    ∃ s', UpsertItem [("a", Doc.ok { id := "a", name := "apples",
                                     quantity := some "4", createdAt := 5 })]
            { id := some "a", name := "pears", quantity := none } "f" 9
            = (.ok (ListItems s'), s') ∧
      docAt s' "a" = some (Doc.ok { id := "a", name := "pears",
                                    quantity := some "4", createdAt := 5 }) ∧
      (∀ j, j ≠ "a" →
        docAt s' j = docAt [("a", Doc.ok { id := "a", name := "apples",
                                           quantity := some "4", createdAt := 5 })] j) :=
  upsert_update_spec
    [("a", Doc.ok { id := "a", name := "apples", quantity := some "4", createdAt := 5 })]
    "a" "pears" none "f" 9
    { id := "a", name := "apples", quantity := some "4", createdAt := 5 }
    (by decide) rfl

/-- C3: an upsert_item invocation with a non-empty id that names no
existing document fails with NotFound and leaves the store unchanged. -/
theorem upsert_update_notfound_spec (s : Store) (i nm : String) (qty : Option String)
    (f : String) (now : Nat) (hne : i ≠ "") (hmiss : docAt s i = none) :
    UpsertItem s { id := some i, name := nm, quantity := qty } f now
      = (.error .notFound, s) := by
  simp [UpsertItem, hne, hmiss]

/-- Witness for C3 at a concrete input. -/
theorem upsert_update_notfound_spec_witness :
    UpsertItem [] { id := some "x", name := "bread", quantity := none } "f" 0
      = (.error .notFound, []) :=
  upsert_update_notfound_spec [] "x" "bread" none "f" 0 (by decide) rfl

/-- C5: an upsert_item invocation whose name argument is missing, not a
string, or empty is rejected by local validation: the handler returns an
error result and the store is exactly the one it was given. -/
theorem upsert_invalid_name_rejected (args : Args) (s : Store) (f : String) (now : Nat)
    (h : asString (getArg args "name") = none ∨
         asString (getArg args "name") = some "") :
    ∃ msg, upsertItemHandler args s f now = (.error msg, s) := by
  rcases h with h | h
  · exact ⟨"invalid or missing name", by simp [upsertItemHandler, h]⟩
  · exact ⟨"name is required", by simp [upsertItemHandler, h]⟩

/-- Witness for C5 at a concrete input (name present but not a string). -/
theorem upsert_invalid_name_rejected_witness :
    ∃ msg, upsertItemHandler [("name", JValue.num 3)] [] "f" 0 = (.error msg, []) :=
  upsert_invalid_name_rejected [("name", JValue.num 3)] [] "f" 0 (Or.inl rfl)

/-- C6: an item created via upsert_item is returned by the subsequent
list unchanged in every field (id, name, quantity, created_at). -/
theorem create_round_trip (s : Store) (input : ItemInput) (f : String) (now : Nat)
    (hid : input.id = none ∨ input.id = some "")
    (hfresh : (docAt s f).isSome = false) :
    ∃ s', UpsertItem s input f now = (.ok (ListItems s'), s') ∧
      ({ id := f, name := input.name, quantity := input.quantity,
         createdAt := now } : Item) ∈ ListItems s' := by
  rw [upsertItem_emptyId s input f now hid]
  refine ⟨s ++ [(f, Doc.ok ⟨f, input.name, input.quantity, now⟩)], ?_, ?_⟩
  · simp [upsertCreate, hfresh]
  · simp [ListItems, listDocs_append, listDocs]

/-- Witness for C6 at a concrete input. -/
theorem create_round_trip_witness :
    ∃ s', UpsertItem [] { id := none, name := "milk", quantity := some "2" } "id1" 7
            = (.ok (ListItems s'), s') ∧
      ({ id := "id1", name := "milk", quantity := some "2",
         createdAt := 7 } : Item) ∈ ListItems s' :=
  create_round_trip [] { id := none, name := "milk", quantity := some "2" } "id1" 7
    (Or.inl rfl) rfl

/-- C4: whenever upsert_item or remove_item succeeds, the payload it
returns is exactly the item list of the post-mutation store — the same
result list_items would produce on that state — not just the mutated
record. -/
theorem mutation_returns_full_list (args : Args) (s : Store) (f : String) (now : Nat)
    (l : List Item) (s' : Store) :
    (upsertItemHandler args s f now = (.ok l, s') → l = ListItems s') ∧
    (removeItemHandler args s = (.ok l, s') → l = ListItems s') := by
  constructor
  · intro h
    unfold upsertItemHandler at h
    cases hn : asString (getArg args "name") with
    | none => rw [hn] at h; simp at h
    | some name =>
      rw [hn] at h
      by_cases h₀ : name = ""
      · simp [h₀] at h
      · simp only [h₀, if_false] at h
        rcases hu : UpsertItem s ⟨optStringArg args "id", name,
            optStringArg args "quantity"⟩ f now with ⟨r, s₂⟩
        rw [hu] at h
        cases r with
        | ok items =>
          simp only [Prod.mk.injEq, ToolResult.ok.injEq] at h
          obtain ⟨h₁, h₂⟩ := h
          rw [← h₁, ← h₂]
          exact upsertItem_ok_list hu
        | error e => simp at h
  · intro h
    unfold removeItemHandler at h
    cases hn : asString (getArg args "id") with
    | none => rw [hn] at h; simp at h
    | some i =>
      rw [hn] at h
      by_cases h₀ : i = ""
      · simp [h₀] at h
      · simp only [h₀, if_false] at h
        have hr : RemoveItem s i = (.ok (ListItems (delDocs s i)), delDocs s i) := rfl
        rw [hr] at h
        simp only [Prod.mk.injEq, ToolResult.ok.injEq] at h
        obtain ⟨h₁, h₂⟩ := h
        rw [← h₁, ← h₂]

/-- Witness for C4 at a concrete input (an upsert that creates). -/
theorem mutation_returns_full_list_witness :
    [({ id := "id1", name := "milk", quantity := none, createdAt := 0 } : Item)]
      = ListItems [("id1", Doc.ok { id := "id1", name := "milk",
                                    quantity := none, createdAt := 0 })] :=
  (mutation_returns_full_list [("name", JValue.str "milk")] [] "id1" 0
    [{ id := "id1", name := "milk", quantity := none, createdAt := 0 }]
    [("id1", Doc.ok { id := "id1", name := "milk", quantity := none,
                      createdAt := 0 })]).1 rfl

/-- C7: at the dispatcher boundary, passing the empty string for the
optional id argument behaves exactly like omitting id, and likewise for
the optional quantity argument: both are coerced to absent before the
store is consulted. -/
theorem empty_optional_equals_absent (args : Args) (s : Store) (f : String) (now : Nat) :
    upsertItemHandler (setArg args "id" (JValue.str "")) s f now
        = upsertItemHandler (delArg args "id") s f now ∧
    upsertItemHandler (setArg args "quantity" (JValue.str "")) s f now
        = upsertItemHandler (delArg args "quantity") s f now := by
  constructor
  · apply upsertItemHandler_congr
    · rw [getArg_setArg_ne args "id" "name" (by decide) (JValue.str ""),
          getArg_delArg_ne args "id" "name" (by decide)]
    · simp [optStringArg, getArg_setArg_self, getArg_delArg_self, asString]
    · rw [optStringArg, optStringArg,
          getArg_setArg_ne args "id" "quantity" (by decide) (JValue.str ""),
          getArg_delArg_ne args "id" "quantity" (by decide)]
  · apply upsertItemHandler_congr
    · rw [getArg_setArg_ne args "quantity" "name" (by decide) (JValue.str ""),
          getArg_delArg_ne args "quantity" "name" (by decide)]
    · rw [optStringArg, optStringArg,
          getArg_setArg_ne args "quantity" "id" (by decide) (JValue.str ""),
          getArg_delArg_ne args "quantity" "id" (by decide)]
    · simp [optStringArg, getArg_setArg_self, getArg_delArg_self, asString]

/-- C8: remove_item deletes the document with the given id, so no item
with that id remains in the next list, and repeating the removal with the
same (now absent) id succeeds and returns the same list — the delete is
idempotent, not an error. -/
theorem remove_item_spec (s : Store) (i : String) (hwf : storeWF s = true) :
    ∃ s', RemoveItem s i = (.ok (ListItems s'), s') ∧
      (∀ it ∈ ListItems s', it.id ≠ i) ∧
      RemoveItem s' i = (.ok (ListItems s'), s') := by
  refine ⟨delDocs s i, rfl, ?_, ?_⟩
  · intro it hit
    obtain ⟨k, hk⟩ := mem_listDocs hit
    obtain ⟨hkne, hmem⟩ := mem_delDocs hk
    rw [storeWF_spec hwf hmem]
    exact hkne
  · show RemoveItem (delDocs s i) i = _
    unfold RemoveItem
    rw [delDocs_idem]

/-- Witness for C8 at a concrete input. -/
theorem remove_item_spec_witness :
    ∃ s', RemoveItem [("a", Doc.ok { id := "a", name := "apples",
                                     quantity := none, createdAt := 0 })] "a"
            = (.ok (ListItems s'), s') ∧
      (∀ it ∈ ListItems s', it.id ≠ "a") ∧
      RemoveItem s' "a" = (.ok (ListItems s'), s') :=
  remove_item_spec
    [("a", Doc.ok { id := "a", name := "apples", quantity := none, createdAt := 0 })]
    "a" (by decide)

/-- C9: List decodes each stored document, skipping any document that
fails to decode instead of failing the whole operation: removing an
undecodable document from the store does not change the result, and the
result is exactly the successfully decoded items in store order. -/
theorem list_skips_undecodable :
    (∀ (l₁ l₂ : Store) (k : String),
        ListItems (l₁ ++ (k, Doc.corrupt) :: l₂) = ListItems (l₁ ++ l₂)) ∧
    (∀ s : Store,
        ListItems s = s.filterMap (fun p =>
          match p.2 with
          | .ok it => some it
          | .corrupt => none)) := by
  constructor
  · intro l₁ l₂ k
    simp [ListItems, listDocs_append, listDocs]
  · intro s
    induction s with
    | nil => rfl
    | cons p rest ih =>
      obtain ⟨k, d⟩ := p
      cases d with
      | ok it => simpa [ListItems, listDocs, List.filterMap_cons] using ih
      | corrupt => simpa [ListItems, listDocs, List.filterMap_cons] using ih

/-! ## Quantity-clearing invariant (C10) -/

/-- UpsertItem never clears a stored quantity: if the document at `i`
decodes to an item with a present quantity, the document at `i` after
any UpsertItem call still has a present quantity. -/
theorem upsertItem_keeps_quantity (s : Store) (input : ItemInput) (f : String)
    (now : Nat) (i : String) (it it' : Item)
    (h0 : docAt s i = some (Doc.ok it)) (hq : it.quantity ≠ none)
    (h1 : docAt (UpsertItem s input f now).2 i = some (Doc.ok it')) :
    it'.quantity ≠ none := by
  have hcreate : docAt (upsertCreate s input f now).2 i = some (Doc.ok it') →
      it'.quantity ≠ none := by
    intro h
    unfold upsertCreate at h
    by_cases hf : (docAt s f).isSome = true
    · simp only [hf, if_true] at h
      rw [h0] at h
      simp only [Option.some.injEq, Doc.ok.injEq] at h
      subst h; exact hq
    · simp only [hf, Bool.false_eq_true, if_false] at h
      rw [docAt_append_left h0] at h
      simp only [Option.some.injEq, Doc.ok.injEq] at h
      subst h; exact hq
  rcases hid : input.id with _ | j
  · exact hcreate (by rw [← upsertItem_emptyId s input f now (Or.inl hid)]; exact h1)
  · by_cases hje : j = ""
    · exact hcreate
        (by rw [← upsertItem_emptyId s input f now (Or.inr (hje ▸ hid))]; exact h1)
    · by_cases hex : (docAt s j).isSome = true
      · have hpost : (UpsertItem s input f now).2
            = updDocs s j (FUpdate.name input.name ::
                (match input.quantity with
                 | some q => [FUpdate.quantity q]
                 | none => [])) := by
          simp [UpsertItem, hid, hje, hex]
        rw [hpost] at h1
        by_cases hij : i = j
        · subst hij
          rw [docAt_updDocs_self, h0] at h1
          rcases hqi : input.quantity with _ | q
          · rw [hqi] at h1
            simp [applyUpdates, applyUpdate, List.foldl_cons, List.foldl_nil] at h1
            subst h1
            simpa using hq
          · rw [hqi] at h1
            simp [applyUpdates, applyUpdate, List.foldl_cons, List.foldl_nil] at h1
            subst h1
            simp
        · rw [docAt_updDocs_ne s i j hij, h0] at h1
          simp only [Option.some.injEq, Doc.ok.injEq] at h1
          subst h1; exact hq
      · have hpost : (UpsertItem s input f now).2 = s := by
          simp [UpsertItem, hid, hje, hex]
        rw [hpost, h0] at h1
        simp only [Option.some.injEq, Doc.ok.injEq] at h1
        subst h1; exact hq

/-- RemoveItem never clears a stored quantity of a surviving item. -/
theorem removeItem_keeps_quantity (s : Store) (j i : String) (it it' : Item)
    (h0 : docAt s i = some (Doc.ok it)) (hq : it.quantity ≠ none)
    (h1 : docAt (RemoveItem s j).2 i = some (Doc.ok it')) :
    it'.quantity ≠ none := by
  by_cases hij : i = j
  · subst hij
    rw [show (RemoveItem s i).2 = delDocs s i from rfl, docAt_delDocs_self] at h1
    simp at h1
  · rw [show (RemoveItem s j).2 = delDocs s j from rfl,
        docAt_delDocs_ne s i j hij, h0] at h1
    simp only [Option.some.injEq, Doc.ok.injEq] at h1
    subst h1; exact hq

/-- One tool invocation never clears a stored quantity of a surviving
item. -/
theorem step_keeps_quantity (c : ToolCall) (s : Store) (i : String) (it it' : Item)
    (h0 : docAt s i = some (Doc.ok it)) (hq : it.quantity ≠ none)
    (h1 : docAt (step s c) i = some (Doc.ok it')) :
    it'.quantity ≠ none := by
  cases c with
  | listCall =>
    rw [show step s .listCall = s from rfl, h0] at h1
    simp only [Option.some.injEq, Doc.ok.injEq] at h1
    subst h1; exact hq
  | upsertCall args f now =>
    rcases upsertItemHandler_post args s f now with hp | ⟨inp, hp⟩
    · rw [show step s (.upsertCall args f now) = (upsertItemHandler args s f now).2
          from rfl, hp, h0] at h1
      simp only [Option.some.injEq, Doc.ok.injEq] at h1
      subst h1; exact hq
    · rw [show step s (.upsertCall args f now) = (upsertItemHandler args s f now).2
          from rfl, hp] at h1
      exact upsertItem_keeps_quantity s inp f now i it it' h0 hq h1
  | removeCall args =>
    rcases removeItemHandler_post args s with hp | ⟨j, hp⟩
    · rw [show step s (.removeCall args) = (removeItemHandler args s).2
          from rfl, hp, h0] at h1
      simp only [Option.some.injEq, Doc.ok.injEq] at h1
      subst h1; exact hq
    · rw [show step s (.removeCall args) = (removeItemHandler args s).2
          from rfl, hp] at h1
      exact removeItem_keeps_quantity s j i it it' h0 hq h1

/-- C10: once an item has a present quantity, no sequence of tool
invocations can return that item's quantity to the absent state while a
document with that id remains in the store throughout the sequence: the
dispatcher coerces an empty quantity argument to absent and the update
branch writes quantity only when it is present, so no invocation clears
a stored quantity. -/
theorem quantity_never_cleared (s : Store) (cs : List ToolCall) (i : String) (it : Item)
    (h0 : docAt s i = some (Doc.ok it)) (hq : it.quantity ≠ none)
    (hstay : ∀ n : Nat, ∃ it₁, docAt (run s (List.take n cs)) i = some (Doc.ok it₁)) :
    ∀ it', docAt (run s cs) i = some (Doc.ok it') → it'.quantity ≠ none := by
  revert hstay hq h0
  induction cs generalizing s it with
  | nil =>
    intro h0 hq _ it' h1
    rw [show run s [] = s from rfl, h0] at h1
    simp only [Option.some.injEq, Doc.ok.injEq] at h1
    subst h1; exact hq
  | cons c cs ih =>
    intro h0 hq hstay it' h1
    obtain ⟨it₁, h₁⟩ := hstay 1
    rw [show List.take 1 (c :: cs) = [c] from rfl] at h₁
    have hstep : docAt (step s c) i = some (Doc.ok it₁) := h₁
    have hq₁ : it₁.quantity ≠ none := step_keeps_quantity c s i it it₁ h0 hq hstep
    have hstay' : ∀ n : Nat,
        ∃ it₂, docAt (run (step s c) (List.take n cs)) i = some (Doc.ok it₂) := by
      intro n
      have h' := hstay (n + 1)
      rwa [List.take_succ_cons] at h'
    exact ih (step s c) it₁ hstep hq₁ hstay' it' h1

/-- Witness for C10 at a concrete input: an update without quantity
leaves the stored quantity present. -/
theorem quantity_never_cleared_witness :
    ({ id := "a", name := "rye", quantity := some "2",
       createdAt := 0 } : Item).quantity ≠ none :=
  quantity_never_cleared
    [("a", Doc.ok { id := "a", name := "bread", quantity := some "2", createdAt := 0 })]
    [ToolCall.upsertCall [("name", JValue.str "rye"), ("id", JValue.str "a")] "f" 1]
    "a" { id := "a", name := "bread", quantity := some "2", createdAt := 0 }
    rfl (by decide)
    (fun n => by
      cases n with
      | zero =>
        exact ⟨{ id := "a", name := "bread", quantity := some "2", createdAt := 0 }, rfl⟩
      | succ m =>
        exact ⟨{ id := "a", name := "rye", quantity := some "2", createdAt := 0 },
          by rw [List.take_succ_cons, List.take_nil]; rfl⟩)
    { id := "a", name := "rye", quantity := some "2", createdAt := 0 }
    rfl

end ShoppingList
